import Mathlib

/-!
Verification of the `gita` dataset-maintenance scripts
(`update_sr.py`, `clear_audio.py`, `clear_all_audio.py`, `setup_audio.py`,
`setup_local_audio.py`, `download_audio.py`).

Each script loads the record collection from `gita.json`, transforms every
record in a simple loop, and writes the collection back.  The embedding
models each script as a function on the in-memory record list; the file
system and the network seen by `download_audio.py` are an explicit
environment, and the observable side effects of that script (URL fetches,
inter-record sleeps) are an explicit event trace.  A script that can die on
an uncaught exception before writing the file is modelled as returning
`Option`, with `none` for the aborted run.

Strings are modelled on `List Char`.  Python details the dataset does not
exercise are modelled for the ASCII repertoire: the regex class `\d` and
`int()` accept any Unicode decimal digit in Python, the dataset markers and
identifiers use ASCII digits, embedded here as `Char.isDigit`; `int()`
whitespace stripping and underscore separators are likewise unused and not
modelled.
-/

/-- Python `str.split` with a one-character separator (the scripts only ever
split on a hyphen or an underscore). -/
def splitChar (sep : Char) : List Char → List (List Char)
  | [] => [[]]
  | c :: rest =>
    let r := splitChar sep rest
    if c = sep then [] :: r
    else
      match r with
      | h :: t => (c :: h) :: t
      | [] => [[c]]

/-- Numeric value of a digit string, most significant digit first. -/
def digitsVal (l : List Char) : Nat :=
  l.foldl (fun a c => a * 10 + (c.toNat - 48)) 0

/-- Python `int(...)` on a string: an optional sign followed by one or more
digits; `none` models the `ValueError` any other shape raises. -/
def pyIntL : List Char → Option Int
  | [] => none
  | '-' :: rest =>
    if !rest.isEmpty && rest.all Char.isDigit then some (-(digitsVal rest : Int)) else none
  | '+' :: rest =>
    if !rest.isEmpty && rest.all Char.isDigit then some ((digitsVal rest : Int)) else none
  | l =>
    if l.all Char.isDigit then some ((digitsVal l : Int)) else none

/-- Python zero-padded decimal formatting of an integer to a given total
width, as in the format specifier `02d`: the sign comes first and counts
toward the total width. -/
def pad (n : Int) (width : Nat) : String :=
  if n < 0 then
    let s := toString (-n)
    "-" ++ String.mk (List.replicate (width - 1 - s.length) '0') ++ s
  else
    let s := toString n
    String.mk (List.replicate (width - s.length) '0') ++ s

/-- Executable list-prefix test. -/
def isPrefixB : List Char → List Char → Bool
  | [], _ => true
  | _ :: _, [] => false
  | a :: as, b :: bs => a == b && isPrefixB as bs

/-- Executable substring test: Python `pat in s` on strings. -/
def isSubB (pat : List Char) : List Char → Bool
  | [] => pat.isEmpty
  | c :: rest => isPrefixB pat (c :: rest) || isSubB pat rest

/-- Python `filename.replace(".mp3", "")` as used by `setup_local_audio.py`:
delete every occurrence of `.mp3`, scanning left to right. -/
def removeMp3 : List Char → List Char
  | '.' :: 'm' :: 'p' :: '3' :: rest => removeMp3 rest
  | c :: rest => c :: removeMp3 rest
  | [] => []

/-- One record of the `shlokas` array of `gita.json`.  The JSON key `sr#` is
the field `sr` here; `chapter` is the independently stored chapter number. -/
structure Shloka where
  chapter : Int
  sr : String
  shloka : String
  audio : String
deriving DecidableEq

/-- One anchored attempt of the Python regex `॥(\d+)-(\d+)॥` from
`update_sr.py`: the opening marker glyph, a maximal nonempty digit run, a
hyphen, a maximal nonempty digit run, the closing marker glyph.  Greedy
`\d+` cannot backtrack productively here, so the match at a position is
exactly this maximal-munch shape. -/
def matchAt : List Char → Option (String × String)
  | [] => none
  | c :: rest =>
    if c = '॥' then
      match rest.takeWhile Char.isDigit, rest.dropWhile Char.isDigit with
      | d :: ds, '-' :: rest2 =>
        match rest2.takeWhile Char.isDigit, rest2.dropWhile Char.isDigit with
        | e :: es, g :: _ =>
          if g = '॥' then some (String.mk (d :: ds), String.mk (e :: es)) else none
        | _, _ => none
      | _, _ => none
    else none

/-- Python `re.search` for the marker pattern: the match at the leftmost
position where one exists. -/
def searchMarker : List Char → Option (String × String)
  | [] => none
  | c :: rest =>
    match matchAt (c :: rest) with
    | some r => some r
    | none => searchMarker rest

/-- Loop body of `update_sr.py`: recompute `sr#` from the embedded marker,
falling back to the stored chapter number and a question mark. -/
def updateShloka (s : Shloka) : Shloka :=
  match searchMarker s.shloka.data with
  | some (c, v) => { s with sr := c ++ "-" ++ v }
  | none => { s with sr := toString s.chapter ++ "-?" }

/-- `update_sr.py`: the whole-collection transformation. -/
def update_sr (l : List Shloka) : List Shloka := l.map updateShloka

/-- `clear_audio.py`: set every record's `audio` to the empty string. -/
def clear_audio (l : List Shloka) : List Shloka :=
  l.map fun s => { s with audio := "" }

/-- `clear_all_audio.py`: its loop is identical to the one in
`clear_audio.py`. -/
def clear_all_audio (l : List Shloka) : List Shloka :=
  l.map fun s => { s with audio := "" }

/-- The shared parse `sr_parts = shloka['sr#'].split('-');
chapter = int(sr_parts[0]); verse = int(sr_parts[1])` of `download_audio.py`
and `setup_audio.py`; `none` models the uncaught `ValueError` or
`IndexError` that aborts those scripts. -/
def parseSr (sr : String) : Option (Int × Int) :=
  match splitChar '-' sr.data with
  | p0 :: p1 :: _ =>
    match pyIntL p0, pyIntL p1 with
    | some c, some v => some (c, v)
    | _, _ => none
  | _ => none

/-- Loop body of `setup_audio.py`: parse `sr#` (an uncaught exception aborts
the script before it writes), then set `audio` to the empty string. -/
def setupAudioShloka (s : Shloka) : Option Shloka :=
  match parseSr s.sr with
  | some _ => some { s with audio := "" }
  | none => none

/-- `setup_audio.py`: `none` models a run that died before writing the
file. -/
def setup_audio : List Shloka → Option (List Shloka)
  | [] => some []
  | s :: rest =>
    match setupAudioShloka s, setup_audio rest with
    | some s1, some rest1 => some (s1 :: rest1)
    | _, _ => none

/-- Scan step of `setup_local_audio.py` for one directory entry: keep `.mp3`
files whose stem splits on an underscore into two integer-parseable parts,
keyed by the dehydrated identifier and valued by the relative path; `none`
models both the extension filter and the `try/except` skip of invalid
names. -/
def scanEntry (filename : String) : Option (String × String) :=
  if isPrefixB ['3', 'p', 'm', '.'] filename.data.reverse then
    match splitChar '_' (removeMp3 filename.data) with
    | p0 :: p1 :: _ =>
      match pyIntL p0, pyIntL p1 with
      | some c, some v => some (toString c ++ "-" ++ toString v, "audio/" ++ filename)
      | _, _ => none
    | _ => none
  else none

/-- The `audio_files` dictionary of `setup_local_audio.py` as its
insertion-ordered entry list; on a repeated key the later entry wins. -/
def buildAudioFiles (files : List String) : List (String × String) :=
  files.filterMap scanEntry

/-- Python dict lookup over an insertion-ordered entry list: the value of
the last binding of the key. -/
def dictLookup (entries : List (String × String)) (k : String) : Option String :=
  (entries.reverse.find? fun e => e.1 == k).map Prod.snd

/-- `setup_local_audio.py`: bind records to scanned local audio files by
`sr#`; records without a matching key are left untouched. -/
def setup_local_audio (files : List String) (l : List Shloka) : List Shloka :=
  let af := buildAudioFiles files
  l.map fun s =>
    match dictLookup af s.sr with
    | some path => { s with audio := path }
    | none => s

/-- Outcome of `requests.get` on one URL: an exception, or a response with
its status code, `content-type` header, and payload bytes. -/
inductive FetchOutcome where
  | exn : FetchOutcome
  | resp : Nat → String → List Nat → FetchOutcome
deriving DecidableEq

/-- The ambient world of one `download_audio.py` run: which paths exist on
disk before the run, and what fetching each URL returns. -/
structure Env where
  fileExists : String → Bool
  fetch : String → FetchOutcome

/-- Observable side effects of the run, in order: URL fetches and the
inter-record `time.sleep(0.5)`. -/
inductive Event where
  | fetched : String → Event
  | slept : Event
deriving BEq, DecidableEq

/-- Mutable state of the `download_audio.py` main loop: the evolving file
system, the event trace, and the two summary accumulators. -/
structure RunState where
  fs : String → Bool
  events : List Event
  successful : Nat
  failed : List String

/-- The success test of `download_audio` (lines 50 to 57 of
`download_audio.py`): a candidate succeeds iff the status code is 200 and
the response is verified as audio, either because the `content-type` header
contains `audio` or `mpeg`, or because the first three payload bytes are
the `ID3` signature (bytes 73, 68, 51). -/
def isAudioResponse : FetchOutcome → Bool
  | FetchOutcome.exn => false
  | FetchOutcome.resp status ct content =>
    status == 200 &&
      (isSubB "audio".data ct.data || isSubB "mpeg".data ct.data ||
        content.take 3 == [73, 68, 51])

/-- `get_audio_urls` of `download_audio.py`: the four candidate URL
templates in declared priority order. -/
def get_audio_urls (ch vr : Int) : List String :=
  ["https://bhagavadgita.io/static/audio/" ++ pad ch 2 ++ "_" ++ pad vr 3 ++ ".mp3",
   "https://www.gitasupersite.iitk.ac.in/srimad/sloka/audio/" ++ toString ch ++ "/" ++
     toString vr ++ ".mp3",
   "https://media.blubrry.com/bhagavad_gita/audio.iskcondesiretree.com/01_-_Srila_Prabhupada_Class/01_-_Bhagavad-Gita/Bhagavad-Gita_" ++
     pad ch 2 ++ "." ++ pad vr 2 ++ ".mp3",
   "https://www.holy-bhagavad-gita.org/public/audio/0" ++ toString ch ++ "/0" ++
     toString ch ++ pad vr 2 ++ ".mp3"]

/-- The canonical local filename `f"audio/..chapter:02d.._..verse:03d...mp3"`
of `download_audio.py` line 71. -/
def canonicalPath (ch vr : Int) : String :=
  "audio/" ++ pad ch 2 ++ "_" ++ pad vr 3 ++ ".mp3"

/-- The candidate loop of `download_audio.py` (lines 82 to 92): try each URL
in order and stop at the first verified-audio response; the returned trace
records every URL actually fetched, and the flag reports success. -/
def trySources (env : Env) : List String → List Event × Bool
  | [] => ([], false)
  | u :: rest =>
    if isAudioResponse (env.fetch u) then ([Event.fetched u], true)
    else
      let p := trySources env rest
      (Event.fetched u :: p.1, p.2)

/-- One iteration of the main loop of `download_audio.py` (lines 66 to 100):
parse `sr#` (`none` models the uncaught exception), short-circuit on a
pre-existing canonical file (whose `continue` skips the sleep), otherwise
try the candidates, record the success or the failure, and sleep. -/
def processShloka (env : Env) (st : RunState) (s : Shloka) : Option (RunState × Shloka) :=
  match parseSr s.sr with
  | none => none
  | some (chapter, verse) =>
    let filename := canonicalPath chapter verse
    if st.fs filename then
      some ({ st with successful := st.successful + 1 }, { s with audio := filename })
    else
      let p := trySources env (get_audio_urls chapter verse)
      if p.2 then
        some ({ st with
                  fs := fun q => q == filename || st.fs q,
                  events := st.events ++ p.1 ++ [Event.slept],
                  successful := st.successful + 1 },
              { s with audio := filename })
      else
        some ({ st with
                  events := st.events ++ p.1 ++ [Event.slept],
                  failed := st.failed ++ [s.sr] },
              { s with audio := "" })

/-- The main loop over all records, threading the run state. -/
def runDownload (env : Env) : List Shloka → RunState → Option (RunState × List Shloka)
  | [], st => some (st, [])
  | s :: rest, st =>
    match processShloka env st s with
    | none => none
    | some (st1, s1) =>
      match runDownload env rest st1 with
      | none => none
      | some (st2, out) => some (st2, s1 :: out)

/-- `download_audio.py` as a whole: run the main loop from the initial
state given by the pre-run file system. -/
def download_audio_run (env : Env) (l : List Shloka) : Option (RunState × List Shloka) :=
  runDownload env l { fs := env.fileExists, events := [], successful := 0, failed := [] }

/-- The records agree on every field except possibly `audio`. -/
def agreeExceptAudio (a b : Shloka) : Prop :=
  b.chapter = a.chapter ∧ b.sr = a.sr ∧ b.shloka = a.shloka

/-- The records agree on every field except possibly `sr`. -/
def agreeExceptSr (a b : Shloka) : Prop :=
  b.chapter = a.chapter ∧ b.shloka = a.shloka ∧ b.audio = a.audio

/-- World with no local files and every fetch raising. -/
def envNone : Env := { fileExists := fun _ => false, fetch := fun _ => FetchOutcome.exn }

/-- World where every path already exists on disk. -/
def envAll : Env := { fileExists := fun _ => true, fetch := fun _ => FetchOutcome.exn }

/-- A well-formed record for chapter 1, verse 1. -/
def s11 : Shloka := { chapter := 1, sr := "1-1", shloka := "text", audio := "" }

/-- A record whose identifier is the documented unresolved placeholder. -/
def sBad : Shloka := { chapter := 5, sr := "5-?", shloka := "no marker here", audio := "" }

/-- Initial run state over `envNone`. -/
def st0 : RunState := { fs := envNone.fileExists, events := [], successful := 0, failed := [] }

/-- The second candidate URL for chapter 1, verse 1. -/
def urlB11 : String := "https://www.gitasupersite.iitk.ac.in/srimad/sloka/audio/1/1.mp3"

/-- The third candidate URL for chapter 1, verse 1. -/
def urlC11 : String := "https://media.blubrry.com/bhagavad_gita/audio.iskcondesiretree.com/01_-_Srila_Prabhupada_Class/01_-_Bhagavad-Gita/Bhagavad-Gita_01.01.mp3"

/-- The fourth candidate URL for chapter 1, verse 1. -/
def urlD11 : String := "https://www.holy-bhagavad-gita.org/public/audio/01/0101.mp3"

/-- World with no local files where exactly the second candidate for
chapter 1, verse 1 serves verified audio. -/
def env2 : Env :=
  { fileExists := fun _ => false,
    fetch := fun u =>
      if u == urlB11 then FetchOutcome.resp 200 "audio/mpeg" [] else FetchOutcome.exn }

/-- A record with an existing audio value, for the bind-local witness. -/
def s215 : Shloka := { chapter := 2, sr := "2-15", shloka := "t", audio := "old" }

/-- A scanned filename following the fixed convention. -/
def fileW : String := "02_015.mp3"

/-- A record whose text embeds the marker for chapter 2, verse 47. -/
def sMark : Shloka := { chapter := 2, sr := "old", shloka := "a ॥2-47॥ b", audio := "x" }

/-- A record whose text has no recognizable marker, with chapter 5. -/
def sNoMark : Shloka := { chapter := 5, sr := "old", shloka := "no marker", audio := "" }

/-- A run state in which only the canonical file for chapter 1, verse 1
exists. -/
def stEx : RunState :=
  { fs := fun q => q == "audio/01_001.mp3", events := [], successful := 0, failed := [] }

/-- Final state of running `download_audio.py` over `envAll` on the single
record `s11`: the pre-existing file is counted as a success, with no events
and no failures. -/
def resW : RunState := { fs := envAll.fileExists, events := [], successful := 1, failed := [] }

/-- Output records of that same run. -/
def outW : List Shloka := [{ s11 with audio := "audio/01_001.mp3" }]

lemma takeWhile_dropWhile_app {p : Char → Bool} :
    ∀ (l r : List Char), (∀ x ∈ l, p x = true) →
      (∀ y ys, r = y :: ys → p y = false) →
      (l ++ r).takeWhile p = l ∧ (l ++ r).dropWhile p = r := by
  intro l
  induction l with
  | nil =>
    intro r _ hr
    cases r with
    | nil => simp
    | cons y ys =>
      have hy := hr y ys rfl
      simp [List.takeWhile_cons, List.dropWhile_cons, hy]
  | cons a tl ih =>
    intro r hall hr
    have ha : p a = true := hall a (List.mem_cons_self a tl)
    have htl := ih r (fun x hx => hall x (List.mem_cons_of_mem a hx)) hr
    simp [List.takeWhile_cons, List.dropWhile_cons, ha, htl.1, htl.2]

lemma matchAt_some {l : List Char} {c v : String} (h : matchAt l = some (c, v)) :
    c.data ≠ [] ∧ v.data ≠ [] ∧ (∀ x ∈ c.data, x.isDigit = true) ∧
      (∀ x ∈ v.data, x.isDigit = true) ∧
      ∃ t, l = '॥' :: (c.data ++ '-' :: (v.data ++ '॥' :: t)) := by
  cases l with
  | nil => simp [matchAt] at h
  | cons a rest =>
    simp only [matchAt] at h
    split at h
    case isTrue ha =>
      split at h
      case h_1 d ds rest2 heq1 heq2 =>
        split at h
        case h_1 e es g grest heq3 heq4 =>
          split at h
          case isTrue hg =>
            have hp := Option.some.inj h
            have hc : String.mk (d :: ds) = c := congrArg Prod.fst hp
            have hv : String.mk (e :: es) = v := congrArg Prod.snd hp
            have hrest : rest = (d :: ds) ++ '-' :: rest2 := by
              rw [← @List.takeWhile_append_dropWhile _ Char.isDigit rest, heq1, heq2]
            have hrest2 : rest2 = (e :: es) ++ '॥' :: grest := by
              rw [← @List.takeWhile_append_dropWhile _ Char.isDigit rest2, heq3, heq4, hg]
            refine ⟨by rw [← hc]; simp, by rw [← hv]; simp, ?_, ?_, grest, ?_⟩
            · intro x hx
              rw [← hc] at hx
              exact List.mem_takeWhile_imp (heq1 ▸ hx)
            · intro x hx
              rw [← hv] at hx
              exact List.mem_takeWhile_imp (heq3 ▸ hx)
            · rw [ha, ← hc, ← hv]
              simp only [hrest, hrest2]
          case isFalse => simp at h
        case h_2 => simp at h
      case h_2 => simp at h
    case isFalse => simp at h

lemma matchAt_marker {c v post : List Char} (hc : c ≠ []) (hv : v ≠ [])
    (hcd : ∀ x ∈ c, x.isDigit = true) (hvd : ∀ x ∈ v, x.isDigit = true) :
    matchAt ('॥' :: (c ++ '-' :: (v ++ '॥' :: post))) =
      some (String.mk c, String.mk v) := by
  have h1 := takeWhile_dropWhile_app c ('-' :: (v ++ '॥' :: post)) hcd
    (by intro y ys hy; cases hy; decide)
  have h2 := takeWhile_dropWhile_app v ('॥' :: post) hvd
    (by intro y ys hy; cases hy; decide)
  obtain ⟨c0, c'⟩ := List.exists_cons_of_ne_nil hc
  obtain ⟨v0, v'⟩ := List.exists_cons_of_ne_nil hv
  obtain ⟨c', rfl⟩ := c'
  obtain ⟨v', rfl⟩ := v'
  simp only [matchAt, if_pos rfl]
  rw [h1.1, h1.2]
  simp only []
  rw [h2.1, h2.2]
  simp

lemma searchMarker_cons_none {a : Char} {rest : List Char}
    (h : searchMarker (a :: rest) = none) :
    matchAt (a :: rest) = none ∧ searchMarker rest = none := by
  simp only [searchMarker] at h
  cases hm : matchAt (a :: rest) with
  | some r => rw [hm] at h; simp at h
  | none => rw [hm] at h; exact ⟨rfl, h⟩

lemma searchMarker_none_split :
    ∀ (pre rest : List Char), searchMarker (pre ++ rest) = none → matchAt rest = none := by
  intro pre
  induction pre with
  | nil =>
    intro rest h
    cases rest with
    | nil => simp [matchAt]
    | cons a tl => exact (searchMarker_cons_none (by simpa using h)).1
  | cons a tl ih =>
    intro rest h
    have h2 : searchMarker (tl ++ rest) = none :=
      (searchMarker_cons_none (by simpa using h)).2
    exact ih rest h2

lemma searchMarker_some_decomp :
    ∀ (l : List Char) (c v : String), searchMarker l = some (c, v) →
      c.data ≠ [] ∧ v.data ≠ [] ∧ (∀ x ∈ c.data, x.isDigit = true) ∧
        (∀ x ∈ v.data, x.isDigit = true) ∧
        ∃ pre post, l = pre ++ '॥' :: (c.data ++ '-' :: (v.data ++ '॥' :: post)) := by
  intro l
  induction l with
  | nil => intro c v h; simp [searchMarker] at h
  | cons a rest ih =>
    intro c v h
    simp only [searchMarker] at h
    cases hm : matchAt (a :: rest) with
    | some r =>
      rw [hm] at h
      have hr : r = (c, v) := by simpa using h
      rw [hr] at hm
      obtain ⟨h1, h2, h3, h4, t, ht⟩ := matchAt_some hm
      exact ⟨h1, h2, h3, h4, [], t, by simpa using ht⟩
    | none =>
      rw [hm] at h
      obtain ⟨h1, h2, h3, h4, pre, post, hpp⟩ := ih c v h
      exact ⟨h1, h2, h3, h4, a :: pre, post, by simp [hpp]⟩

lemma get_map_eq {α β : Type} (f : α → β) (l : List α) (i : Nat)
    (h1 : i < l.length) (h2 : i < (l.map f).length) :
    (l.map f).get ⟨i, h2⟩ = f (l.get ⟨i, h1⟩) := by
  simp [List.get_eq_getElem]

/-- C1: Recompute Identifier postcondition.  For every record, if the fixed
marker pattern matches the record's `shloka` text, the new `sr#` is the
matched chapter and verse joined by a hyphen, and the text indeed contains a
well-formed marker (two nonempty digit runs between the marker glyphs); if
the pattern does not match, the new `sr#` is the stored `chapter` followed
by a hyphen and a question mark, and no well-formed marker occurs anywhere
in the text.  All other fields are unchanged. -/
theorem C1_recompute_identifier (l : List Shloka) (i : Nat)
    (h1 : i < l.length) (h2 : i < (update_sr l).length) :
    (∀ c v : String, searchMarker (l.get ⟨i, h1⟩).shloka.data = some (c, v) →
      (update_sr l).get ⟨i, h2⟩ = { l.get ⟨i, h1⟩ with sr := c ++ "-" ++ v } ∧
        c.data ≠ [] ∧ v.data ≠ [] ∧
        (∀ x ∈ c.data, x.isDigit = true) ∧ (∀ x ∈ v.data, x.isDigit = true) ∧
        ∃ pre post, (l.get ⟨i, h1⟩).shloka.data =
          pre ++ '॥' :: (c.data ++ '-' :: (v.data ++ '॥' :: post))) ∧
    (searchMarker (l.get ⟨i, h1⟩).shloka.data = none →
      (update_sr l).get ⟨i, h2⟩ =
          { l.get ⟨i, h1⟩ with sr := toString (l.get ⟨i, h1⟩).chapter ++ "-?" } ∧
        ¬ ∃ (c v pre post : List Char), c ≠ [] ∧ v ≠ [] ∧
            (∀ x ∈ c, x.isDigit = true) ∧ (∀ x ∈ v, x.isDigit = true) ∧
            (l.get ⟨i, h1⟩).shloka.data = pre ++ '॥' :: (c ++ '-' :: (v ++ '॥' :: post))) := by
  have hmap : (update_sr l).get ⟨i, h2⟩ = updateShloka (l.get ⟨i, h1⟩) :=
    get_map_eq updateShloka l i h1 h2
  constructor
  · intro c v hm
    obtain ⟨d1, d2, d3, d4, pre, post, hpp⟩ := searchMarker_some_decomp _ c v hm
    exact ⟨by rw [hmap]; simp only [updateShloka, hm], d1, d2, d3, d4, pre, post, hpp⟩
  · intro hm
    constructor
    · rw [hmap]; simp only [updateShloka, hm]
    · rintro ⟨c, v, pre, post, hc, hv, hcd, hvd, hpp⟩
      have hnone := searchMarker_none_split pre ('॥' :: (c ++ '-' :: (v ++ '॥' :: post)))
        (by rw [← hpp]; exact hm)
      rw [matchAt_marker hc hv hcd hvd] at hnone
      simp at hnone

/-- Witness for C1: the record embedding the marker for chapter 2, verse 47
gets `sr#` equal to the hyphen-joined pair, and the markerless record with
chapter 5 gets the unresolved placeholder. -/
theorem C1_witness :
    (update_sr [sMark, sNoMark]).get ⟨0, by simp [update_sr]⟩ =
        { sMark with sr := "2-47" } ∧
    (update_sr [sMark, sNoMark]).get ⟨1, by simp [update_sr]⟩ =
        { sNoMark with sr := "5-?" } := by
  constructor
  · exact ((C1_recompute_identifier [sMark, sNoMark] 0 (by simp) (by simp [update_sr])).1
      "2" "47" (by decide)).1
  · exact ((C1_recompute_identifier [sMark, sNoMark] 1 (by simp) (by simp [update_sr])).2
      (by decide)).1

lemma append_ne_empty_of_right (a : String) {b : String} (hb : b.data ≠ []) :
    a ++ b ≠ "" := by
  intro h
  apply hb
  have hd : (a ++ b).data = "".data := by rw [h]
  rw [String.data_append] at hd
  exact (List.append_eq_nil.mp hd).2

lemma canonicalPath_ne (ch vr : Int) : canonicalPath ch vr ≠ "" :=
  append_ne_empty_of_right _ (by decide)

lemma processShloka_some (env : Env) (st : RunState) (s : Shloka) (ch vr : Int)
    (hp : parseSr s.sr = some (ch, vr)) :
    (processShloka env st s).isSome := by
  simp only [processShloka, hp]
  by_cases hf : st.fs (canonicalPath ch vr) = true
  · simp [hf]
  · simp only [Bool.not_eq_true] at hf
    cases hb : (trySources env (get_audio_urls ch vr)).2 <;> simp [hf, hb]

lemma runDownload_isSome (env : Env) :
    ∀ (l : List Shloka) (st : RunState), (∀ s ∈ l, (parseSr s.sr).isSome) →
      (runDownload env l st).isSome := by
  intro l
  induction l with
  | nil => intro st _; simp [runDownload]
  | cons s rest ih =>
    intro st h
    have hs : (parseSr s.sr).isSome = true := h s (List.mem_cons_self s rest)
    obtain ⟨cv, hcv⟩ := Option.isSome_iff_exists.mp hs
    obtain ⟨ch, vr⟩ := cv
    have hps := processShloka_some env st s ch vr hcv
    obtain ⟨p1, hp1⟩ := Option.isSome_iff_exists.mp hps
    obtain ⟨st1, s1⟩ := p1
    have hrest := ih st1 (fun x hx => h x (List.mem_cons_of_mem s hx))
    obtain ⟨p2, hp2⟩ := Option.isSome_iff_exists.mp hrest
    obtain ⟨st2, out⟩ := p2
    simp [runDownload, hp1, hp2]

/-- C2, counterexample: a readable and writable dataset containing the
documented unresolved identifier placeholder `5-?` makes the whole
`download_audio.py` run die on the uncaught `int()` exception before any
record is written, so the claim as stated is false: a per-record failure
that is not a fetch failure is fatal. -/
theorem C2_counterexample : download_audio_run envNone [sBad] = none := rfl

/-- C2, amended: for every environment and every dataset all of whose
records' `sr#` parse as two hyphen-separated integers, Acquire Remote Audio
runs to completion over all records, whatever the per-candidate or
per-record fetch outcomes are. -/
theorem C2_runs_to_completion (env : Env) (l : List Shloka)
    (h : ∀ s ∈ l, (parseSr s.sr).isSome) :
    (download_audio_run env l).isSome :=
  runDownload_isSome env l _ h

/-- Witness for C2: a well-formed record completes even in a world where
every fetch raises. -/
theorem C2_witness :
    (∀ s ∈ [s11], (parseSr s.sr).isSome) ∧ (download_audio_run envNone [s11]).isSome :=
  ⟨by decide, C2_runs_to_completion envNone [s11] (by decide)⟩

/-- C5: Acquire Remote Audio skip-existing.  For every record whose
canonical local file already exists in the run state, the loop body issues
no fetch (the state is unchanged except for the success counter, so in
particular no fetch event is appended), sets `audio` to that canonical
path, and counts the record as a success. -/
theorem C5_skip_existing (env : Env) (st : RunState) (s : Shloka) (ch vr : Int)
    (hp : parseSr s.sr = some (ch, vr)) (hf : st.fs (canonicalPath ch vr) = true) :
    processShloka env st s =
      some ({ st with successful := st.successful + 1 },
            { s with audio := canonicalPath ch vr }) := by
  simp [processShloka, hp, hf]

/-- Witness for C5: with `audio/01_001.mp3` pre-existing, the record `1-1`
is bound to it with no events recorded. -/
theorem C5_witness :
    processShloka envNone stEx s11 =
      some ({ stEx with successful := stEx.successful + 1 },
            { s11 with audio := canonicalPath 1 1 }) :=
  C5_skip_existing envNone stEx s11 1 1 rfl (by decide)

/-- C7, counterexample: a run over one record whose canonical file already
exists processes that record but records no sleep event at all (the
`continue` on the existing-file branch skips `time.sleep`), so the fixed
delay does not occur for every processed record. -/
theorem C7_counterexample :
    (download_audio_run envAll [s11]).map (fun p => (p.1.events, p.2.length)) =
      some (([] : List Event), 1) := rfl

/-- C7, amended: the fixed delay occurs, before the next record is
processed, after every record that did not find a pre-existing canonical
file, whether its download succeeded or failed; a record satisfied by a
pre-existing file is processed with no delay at all. -/
theorem C7_sleeps_only_after_attempts (env : Env) (st : RunState) (s : Shloka)
    (ch vr : Int) (hp : parseSr s.sr = some (ch, vr)) :
    (st.fs (canonicalPath ch vr) = true →
      (processShloka env st s).map (fun p => p.1.events) = some st.events) ∧
    (st.fs (canonicalPath ch vr) = false →
      (processShloka env st s).map (fun p => p.1.events) =
        some (st.events ++ (trySources env (get_audio_urls ch vr)).1 ++ [Event.slept])) := by
  constructor
  · intro hf; simp [processShloka, hp, hf]
  · intro hf
    cases hb : (trySources env (get_audio_urls ch vr)).2 <;>
      simp [processShloka, hp, hf, hb]

/-- Witness for C7: a record with no pre-existing file ends its processing
with the sleep event. -/
theorem C7_witness :
    st0.fs (canonicalPath 1 1) = false ∧
    (processShloka envNone st0 s11).map (fun p => p.1.events) =
      some (st0.events ++ (trySources envNone (get_audio_urls 1 1)).1 ++ [Event.slept]) :=
  ⟨rfl, (C7_sleeps_only_after_attempts envNone st0 s11 1 1 rfl).2 rfl⟩

lemma dropWhile_head_false {α : Type} {p : α → Bool} :
    ∀ (l : List α) (u : α) (rest : List α), l.dropWhile p = u :: rest → p u = false := by
  intro l
  induction l with
  | nil => intro u rest h; simp [List.dropWhile] at h
  | cons a tl ih =>
    intro u rest h
    by_cases hp : p a = true
    · rw [List.dropWhile_cons_of_pos hp] at h
      exact ih u rest h
    · simp only [Bool.not_eq_true] at hp
      rw [List.dropWhile_cons_of_neg (by simp [hp])] at h
      obtain ⟨h1, _⟩ := List.cons.inj h
      rw [← h1]
      exact hp

lemma trySources_eq_none (env : Env) :
    ∀ (urls : List String),
      urls.dropWhile (fun x => !isAudioResponse (env.fetch x)) = [] →
      trySources env urls = (urls.map Event.fetched, false) := by
  intro urls
  induction urls with
  | nil => intro _; rfl
  | cons u rest ih =>
    intro hd
    by_cases hu : isAudioResponse (env.fetch u) = true
    · rw [List.dropWhile_cons_of_neg (by simp [hu])] at hd
      exact absurd hd (by simp)
    · simp only [Bool.not_eq_true] at hu
      rw [List.dropWhile_cons_of_pos (by simp [hu])] at hd
      simp [trySources, hu, ih hd]

lemma trySources_eq_some (env : Env) :
    ∀ (urls : List String) (u : String) (rest : List String),
      urls.dropWhile (fun x => !isAudioResponse (env.fetch x)) = u :: rest →
      trySources env urls =
        (((urls.takeWhile (fun x => !isAudioResponse (env.fetch x))) ++ [u]).map Event.fetched,
          true) := by
  intro urls
  induction urls with
  | nil => intro u rest h; simp [List.dropWhile] at h
  | cons a tl ih =>
    intro u rest hd
    by_cases ha : isAudioResponse (env.fetch a) = true
    · rw [List.dropWhile_cons_of_neg (by simp [ha])] at hd
      obtain ⟨h1, _⟩ := List.cons.inj hd
      subst h1
      rw [List.takeWhile_cons_of_neg (by simp [ha])]
      simp [trySources, ha]
    · simp only [Bool.not_eq_true] at ha
      rw [List.dropWhile_cons_of_pos (by simp [ha])] at hd
      rw [List.takeWhile_cons_of_pos (by simp [ha])]
      simp [trySources, ha, ih u rest hd]

lemma isPrefixB_iff : ∀ (p l : List Char), isPrefixB p l = true ↔ ∃ t, l = p ++ t := by
  intro p
  induction p with
  | nil => intro l; simp [isPrefixB]
  | cons a as ih =>
    intro l
    cases l with
    | nil => simp [isPrefixB]
    | cons b bs =>
      simp only [isPrefixB, Bool.and_eq_true, beq_iff_eq]
      constructor
      · rintro ⟨rfl, h⟩
        obtain ⟨t, rfl⟩ := (ih bs).mp h
        exact ⟨t, rfl⟩
      · rintro ⟨t, ht⟩
        obtain ⟨h1, h2⟩ := List.cons.inj ht
        exact ⟨h1.symm, (ih bs).mpr ⟨t, h2⟩⟩

lemma isSubB_iff : ∀ (pat l : List Char), isSubB pat l = true ↔
    ∃ pre post, l = pre ++ pat ++ post := by
  intro pat l
  induction l with
  | nil =>
    constructor
    · intro h
      have hpat : pat = [] := by
        cases pat with
        | nil => rfl
        | cons c cs => simp [isSubB, List.isEmpty] at h
      subst hpat
      exact ⟨[], [], rfl⟩
    · rintro ⟨pre, post, h⟩
      obtain ⟨hpre, _⟩ := List.append_eq_nil.mp h.symm
      obtain ⟨_, hpat⟩ := List.append_eq_nil.mp hpre
      subst hpat
      simp [isSubB, List.isEmpty]
  | cons c rest ih =>
    simp only [isSubB, Bool.or_eq_true, isPrefixB_iff, ih]
    constructor
    · rintro (⟨t, ht⟩ | ⟨pre, post, hpp⟩)
      · exact ⟨[], t, by simp [ht]⟩
      · exact ⟨c :: pre, post, by simp [hpp]⟩
    · rintro ⟨pre, post, hpp⟩
      cases pre with
      | nil => exact Or.inl ⟨post, by simpa using hpp⟩
      | cons x xs =>
        obtain ⟨_, h2⟩ := List.cons.inj hpp
        exact Or.inr ⟨xs, post, by simp [h2]⟩

/-- C3: Acquire Remote Audio candidate trial.  For a record without a
pre-existing canonical file: a candidate succeeds iff the fetch returns a
200 response verified as audio content, by the content-type header
containing `audio` or `mpeg` or by the `ID3` signature on the first three
payload bytes; every URL before the first succeeding one fails; if no
candidate succeeds, every candidate is fetched in declared order and the
record is marked failed with empty `audio`; if some candidate succeeds, the
fetch trace is exactly the failing prefix followed by that first success —
no later candidate is fetched — the payload is persisted at the canonical
path, and `audio` is set to it. -/
theorem C3_candidate_trial (env : Env) (st : RunState) (s : Shloka) (ch vr : Int)
    (hp : parseSr s.sr = some (ch, vr))
    (hf : st.fs (canonicalPath ch vr) = false) :
    (∀ u : String, isAudioResponse (env.fetch u) = true ↔
      ∃ status ct content, env.fetch u = FetchOutcome.resp status ct content ∧
        status = 200 ∧
        ((∃ pre post, ct.data = pre ++ "audio".data ++ post) ∨
          (∃ pre post, ct.data = pre ++ "mpeg".data ++ post) ∨
          content.take 3 = [73, 68, 51])) ∧
    (∀ u ∈ (get_audio_urls ch vr).takeWhile (fun x => !isAudioResponse (env.fetch x)),
      isAudioResponse (env.fetch u) = false) ∧
    ((get_audio_urls ch vr).dropWhile (fun x => !isAudioResponse (env.fetch x)) = [] →
      processShloka env st s =
        some ({ st with
                  events := st.events ++ (get_audio_urls ch vr).map Event.fetched ++
                    [Event.slept],
                  failed := st.failed ++ [s.sr] },
              { s with audio := "" })) ∧
    (∀ u rest,
      (get_audio_urls ch vr).dropWhile (fun x => !isAudioResponse (env.fetch x)) = u :: rest →
      isAudioResponse (env.fetch u) = true ∧
      processShloka env st s =
        some ({ st with
                  fs := fun q => q == canonicalPath ch vr || st.fs q,
                  events := st.events ++
                    (((get_audio_urls ch vr).takeWhile
                        (fun x => !isAudioResponse (env.fetch x))) ++ [u]).map Event.fetched ++
                    [Event.slept],
                  successful := st.successful + 1 },
              { s with audio := canonicalPath ch vr })) := by
  refine ⟨?_, ?_, ?_, ?_⟩
  · intro u
    cases hu : env.fetch u with
    | exn => simp [isAudioResponse, hu]
    | resp status ct content =>
      simp only [isAudioResponse, hu, Bool.and_eq_true, Bool.or_eq_true, beq_iff_eq]
      constructor
      · rintro ⟨h200, hv⟩
        refine ⟨status, ct, content, rfl, h200, ?_⟩
        rcases hv with (h | h) | h
        · exact Or.inl ((isSubB_iff _ _).mp h)
        · exact Or.inr (Or.inl ((isSubB_iff _ _).mp h))
        · exact Or.inr (Or.inr (by simpa using h))
      · rintro ⟨status2, ct2, content2, heq, h200, hv⟩
        injection heq with h1 h2 h3
        subst h1
        subst h2
        subst h3
        refine ⟨h200, ?_⟩
        rcases hv with h | h | h
        · exact Or.inl (Or.inl ((isSubB_iff _ _).mpr h))
        · exact Or.inl (Or.inr ((isSubB_iff _ _).mpr h))
        · exact Or.inr (by simpa using h)
  · intro u hu
    have := List.mem_takeWhile_imp hu
    simpa using this
  · intro hd
    have ht := trySources_eq_none env (get_audio_urls ch vr) hd
    simp [processShloka, hp, hf, ht]
  · intro u rest hd
    have hu := dropWhile_head_false _ u rest hd
    have hu2 : isAudioResponse (env.fetch u) = true := by simpa using hu
    have ht := trySources_eq_some env (get_audio_urls ch vr) u rest hd
    exact ⟨hu2, by simp [processShloka, hp, hf, ht]⟩

/-- Witness for C3: in a world where only the second candidate for record
`1-1` serves verified audio, the trace is the failing first candidate then
the succeeding second one, the third and fourth are never fetched, and the
record is bound to the canonical path. -/
theorem C3_witness :
    ((get_audio_urls 1 1).dropWhile (fun x => !isAudioResponse (env2.fetch x)) =
      urlB11 :: [urlC11, urlD11]) ∧
    isAudioResponse (env2.fetch urlB11) = true ∧
    processShloka env2 st0 s11 =
      some ({ st0 with
                fs := fun q => q == canonicalPath 1 1 || st0.fs q,
                events := st0.events ++
                  (((get_audio_urls 1 1).takeWhile
                      (fun x => !isAudioResponse (env2.fetch x))) ++ [urlB11]).map
                    Event.fetched ++ [Event.slept],
                successful := st0.successful + 1 },
            { s11 with audio := canonicalPath 1 1 }) := by
  have h := (C3_candidate_trial env2 st0 s11 1 1 rfl rfl).2.2.2
    urlB11 [urlC11, urlD11] (by decide)
  exact ⟨by decide, h.1, h.2⟩

lemma scanEntry_path (f k p2 : String) (h : scanEntry f = some (k, p2)) :
    p2 = "audio/" ++ f := by
  unfold scanEntry at h
  split at h
  case isTrue =>
    split at h
    case h_1 =>
      split at h
      case h_1 => exact (congrArg Prod.snd (Option.some.inj h)).symm
      case h_2 => simp at h
    case h_2 => simp at h
  case isFalse => simp at h

/-- C4: Bind Local Audio postcondition.  A scanned filename's entry always
carries that file's path under the audio directory; every record whose
`sr#` is the key parsed from some scanned filename gets its `audio` set to
the path of such a file, all other fields unchanged; every record with no
matching key is entirely unchanged — the operation only adds, never
clears. -/
theorem C4_bind_local (files : List String) (l : List Shloka) (i : Nat)
    (h1 : i < l.length) (h2 : i < (setup_local_audio files l).length) :
    (∀ f k p2, scanEntry f = some (k, p2) → p2 = "audio/" ++ f) ∧
    ((∃ f ∈ files, ∃ p2, scanEntry f = some ((l.get ⟨i, h1⟩).sr, p2)) →
      (∃ f ∈ files,
        scanEntry f = some ((l.get ⟨i, h1⟩).sr,
          ((setup_local_audio files l).get ⟨i, h2⟩).audio)) ∧
      agreeExceptAudio (l.get ⟨i, h1⟩) ((setup_local_audio files l).get ⟨i, h2⟩)) ∧
    ((¬ ∃ f ∈ files, ∃ p2, scanEntry f = some ((l.get ⟨i, h1⟩).sr, p2)) →
      (setup_local_audio files l).get ⟨i, h2⟩ = l.get ⟨i, h1⟩) := by
  have hmap : (setup_local_audio files l).get ⟨i, h2⟩ =
      (fun s => match dictLookup (buildAudioFiles files) s.sr with
        | some path => { s with audio := path }
        | none => s) (l.get ⟨i, h1⟩) :=
    get_map_eq _ l i h1 h2
  refine ⟨fun f k p2 h => scanEntry_path f k p2 h, ?_, ?_⟩
  · rintro ⟨f, hfmem, p2, hscan⟩
    have hmem : ((l.get ⟨i, h1⟩).sr, p2) ∈ buildAudioFiles files :=
      List.mem_filterMap.mpr ⟨f, hfmem, hscan⟩
    have hsome : ((buildAudioFiles files).reverse.find?
        (fun e => e.1 == (l.get ⟨i, h1⟩).sr)).isSome := by
      apply List.find?_isSome.mpr
      exact ⟨((l.get ⟨i, h1⟩).sr, p2), List.mem_reverse.mpr hmem, by simp⟩
    obtain ⟨e, he⟩ := Option.isSome_iff_exists.mp hsome
    have hkey : e.1 = (l.get ⟨i, h1⟩).sr := by simpa using List.find?_some he
    have hemem : e ∈ buildAudioFiles files :=
      List.mem_reverse.mp (List.mem_of_find?_eq_some he)
    obtain ⟨f2, hf2mem, hf2scan⟩ := List.mem_filterMap.mp hemem
    have hdl : dictLookup (buildAudioFiles files) (l.get ⟨i, h1⟩).sr = some e.2 := by
      unfold dictLookup
      rw [he]
      rfl
    constructor
    · refine ⟨f2, hf2mem, ?_⟩
      rw [hmap]
      simp only [hdl]
      rw [← hkey]
      simpa using hf2scan
    · rw [hmap]
      simp only [hdl]
      exact ⟨rfl, rfl, rfl⟩
  · intro hno
    have hnone : ((buildAudioFiles files).reverse.find?
        (fun e => e.1 == (l.get ⟨i, h1⟩).sr)) = none := by
      rw [List.find?_eq_none]
      rintro ⟨a, b⟩ hab
      simp only [beq_iff_eq]
      intro hkey2
      have hemem : (a, b) ∈ buildAudioFiles files := List.mem_reverse.mp hab
      obtain ⟨f2, hf2mem, hf2scan⟩ := List.mem_filterMap.mp hemem
      rw [hkey2] at hf2scan
      exact hno ⟨f2, hf2mem, b, hf2scan⟩
    have hdl : dictLookup (buildAudioFiles files) (l.get ⟨i, h1⟩).sr = none := by
      unfold dictLookup
      rw [hnone]
      rfl
    rw [hmap]
    simp only [hdl]

/-- Witness for C4: the file `02_015.mp3` binds the record with `sr#`
`2-15` to `audio/02_015.mp3`, changing nothing else. -/
theorem C4_witness :
    ((setup_local_audio [fileW] [s215]).get ⟨0, by decide⟩).audio = "audio/02_015.mp3" ∧
    (∃ f ∈ [fileW],
      scanEntry f =
        some (s215.sr, ((setup_local_audio [fileW] [s215]).get ⟨0, by decide⟩).audio)) ∧
    agreeExceptAudio s215 ((setup_local_audio [fileW] [s215]).get ⟨0, by decide⟩) := by
  have h := (C4_bind_local [fileW] [s215] 0 (by decide) (by decide)).2.1
    ⟨fileW, List.mem_cons_self fileW [], "audio/02_015.mp3", by decide⟩
  exact ⟨by rfl, h.1, h.2⟩

lemma processShloka_step (env : Env) (st : RunState) (s : Shloka) (st2 : RunState)
    (s2 : Shloka) (h : processShloka env st s = some (st2, s2)) :
    agreeExceptAudio s s2 ∧
    st2.failed = st.failed ++ (if s2.audio = "" then [s.sr] else []) := by
  cases hps : parseSr s.sr with
  | none => simp [processShloka, hps] at h
  | some cv =>
    obtain ⟨ch, vr⟩ := cv
    simp only [processShloka, hps] at h
    by_cases hf : st.fs (canonicalPath ch vr) = true
    · rw [if_pos hf] at h
      obtain ⟨hst, hs⟩ := Prod.mk.inj (Option.some.inj h)
      subst hst
      subst hs
      exact ⟨⟨rfl, rfl, rfl⟩, by simp [canonicalPath_ne ch vr]⟩
    · simp only [Bool.not_eq_true] at hf
      rw [if_neg (by simp [hf])] at h
      by_cases hb : (trySources env (get_audio_urls ch vr)).2 = true
      · rw [if_pos hb] at h
        obtain ⟨hst, hs⟩ := Prod.mk.inj (Option.some.inj h)
        subst hst
        subst hs
        exact ⟨⟨rfl, rfl, rfl⟩, by simp [canonicalPath_ne ch vr]⟩
      · simp only [Bool.not_eq_true] at hb
        rw [if_neg (by simp [hb])] at h
        obtain ⟨hst, hs⟩ := Prod.mk.inj (Option.some.inj h)
        subst hst
        subst hs
        exact ⟨⟨rfl, rfl, rfl⟩, by simp⟩

lemma runDownload_master (env : Env) :
    ∀ (l : List Shloka) (st : RunState) (res : RunState) (out : List Shloka),
      runDownload env l st = some (res, out) →
      out.length = l.length ∧
      out.map Shloka.sr = l.map Shloka.sr ∧
      res.failed = st.failed ++
        out.filterMap (fun o => if o.audio = "" then some o.sr else none) ∧
      ∀ i (hi1 : i < l.length) (hi2 : i < out.length),
        agreeExceptAudio (l.get ⟨i, hi1⟩) (out.get ⟨i, hi2⟩) := by
  intro l
  induction l with
  | nil =>
    intro st res out h
    simp only [runDownload] at h
    obtain ⟨h1, h2⟩ := Prod.mk.inj (Option.some.inj h)
    subst h1
    subst h2
    refine ⟨rfl, rfl, by simp, ?_⟩
    intro i hi1 hi2
    exact absurd hi1 (by simp)
  | cons s rest ih =>
    intro st res out h
    cases hps : processShloka env st s with
    | none => simp [runDownload, hps] at h
    | some p =>
      obtain ⟨st1, s1⟩ := p
      cases hrun : runDownload env rest st1 with
      | none => simp [runDownload, hps, hrun] at h
      | some q =>
        obtain ⟨st2, out1⟩ := q
        simp only [runDownload, hps, hrun] at h
        obtain ⟨h1, h2⟩ := Prod.mk.inj (Option.some.inj h)
        subst h1
        subst h2
        obtain ⟨hag, hfail⟩ := processShloka_step env st s st1 s1 hps
        obtain ⟨ihl, ihm, ihf, iha⟩ := ih st1 st2 out1 hrun
        refine ⟨by simp [ihl], ?_, ?_, ?_⟩
        · simp only [List.map_cons, ihm]
          rw [hag.2.1]
        · rw [ihf, hfail]
          by_cases ha : s1.audio = ""
          · simp [List.filterMap_cons, ha, hag.2.1, List.append_assoc]
          · simp [List.filterMap_cons, ha]
        · intro i hi1 hi2
          cases i with
          | zero => exact hag
          | succ j => exact iha j (by simpa using hi1) (by simpa using hi2)

lemma count_aux :
    ∀ (out : List Shloka), (out.map Shloka.sr).Nodup →
      ∀ i (hi : i < out.length),
        ((out.filterMap fun o => if o.audio = "" then some o.sr else none).count
          (out.get ⟨i, hi⟩).sr) =
        if (out.get ⟨i, hi⟩).audio = "" then 1 else 0 := by
  intro out
  induction out with
  | nil => intro _ i hi; exact absurd hi (by simp)
  | cons o rest ih =>
    intro hnd i hi
    simp only [List.map_cons, List.nodup_cons] at hnd
    have hsub : ∀ x ∈ (rest.filterMap fun o2 => if o2.audio = "" then some o2.sr else none),
        x ∈ rest.map Shloka.sr := by
      intro x hx
      obtain ⟨o2, ho2, hval⟩ := List.mem_filterMap.mp hx
      by_cases ha2 : o2.audio = ""
      · rw [if_pos ha2] at hval
        rw [← Option.some.inj hval]
        exact List.mem_map.mpr ⟨o2, ho2, rfl⟩
      · rw [if_neg ha2] at hval
        exact absurd hval (by simp)
    cases i with
    | zero =>
      show (((o :: rest).filterMap fun o2 =>
          if o2.audio = "" then some o2.sr else none).count o.sr) =
        if o.audio = "" then 1 else 0
      by_cases ha : o.audio = ""
      · simp only [List.filterMap_cons, if_pos ha]
        rw [List.count_cons_self,
          List.count_eq_zero.mpr (fun hmem => hnd.1 (hsub _ hmem))]
      · simp only [List.filterMap_cons, if_neg ha]
        rw [List.count_eq_zero.mpr (fun hmem => hnd.1 (hsub _ hmem))]
    | succ j =>
      have hj : j < rest.length := by simpa using hi
      show (((o :: rest).filterMap fun o2 =>
          if o2.audio = "" then some o2.sr else none).count (rest.get ⟨j, hj⟩).sr) =
        if (rest.get ⟨j, hj⟩).audio = "" then 1 else 0
      have hne : (rest.get ⟨j, hj⟩).sr ≠ o.sr := by
        intro hcontra
        exact hnd.1 (hcontra ▸ List.mem_map.mpr ⟨rest.get ⟨j, hj⟩, List.get_mem rest j hj, rfl⟩)
      by_cases ha : o.audio = ""
      · simp only [List.filterMap_cons, if_pos ha]
        rw [List.count_cons_of_ne hne]
        exact ih hnd.2 j hj
      · simp only [List.filterMap_cons, if_neg ha]
        exact ih hnd.2 j hj

/-- C6: failure-list completeness.  After a completed Acquire Remote Audio
run over records with pairwise distinct identifiers, every record whose
`audio` ended empty (exactly the records for which no candidate succeeded
and whose canonical file did not pre-exist, by the loop body) appears
exactly once by its `sr#` in the failure list, every other record's `sr#`
appears zero times, and every failure-list entry is the `sr#` of some
output record with empty `audio`. -/
theorem C6_failure_list (env : Env) (l : List Shloka) (res : RunState) (out : List Shloka)
    (h : download_audio_run env l = some (res, out))
    (hnd : (l.map Shloka.sr).Nodup) :
    out.length = l.length ∧
    (∀ i (h1 : i < l.length) (h2 : i < out.length),
      (out.get ⟨i, h2⟩).sr = (l.get ⟨i, h1⟩).sr ∧
      res.failed.count ((l.get ⟨i, h1⟩).sr) =
        if (out.get ⟨i, h2⟩).audio = "" then 1 else 0) ∧
    (∀ x ∈ res.failed, ∃ o ∈ out, o.sr = x ∧ o.audio = "") := by
  obtain ⟨hlen, hm, hfail, hag⟩ := runDownload_master env l _ res out h
  have hnd2 : (out.map Shloka.sr).Nodup := by rw [hm]; exact hnd
  have hfail2 : res.failed =
      out.filterMap (fun o => if o.audio = "" then some o.sr else none) := by
    simpa using hfail
  refine ⟨hlen, ?_, ?_⟩
  · intro i h1 h2
    have hsr : (out.get ⟨i, h2⟩).sr = (l.get ⟨i, h1⟩).sr := (hag i h1 h2).2.1
    refine ⟨hsr, ?_⟩
    rw [← hsr, hfail2]
    exact count_aux out hnd2 i h2
  · intro x hx
    rw [hfail2] at hx
    obtain ⟨o, ho, hval⟩ := List.mem_filterMap.mp hx
    by_cases ha : o.audio = ""
    · rw [if_pos ha] at hval
      exact ⟨o, ho, Option.some.inj hval, ha⟩
    · rw [if_neg ha] at hval
      exact absurd hval (by simp)

/-- Witness for C6: in the run where the canonical file pre-exists, the
record `1-1` succeeds, keeps its identifier, and appears zero times in the
empty failure list. -/
theorem C6_witness :
    (outW.get ⟨0, by decide⟩).sr = s11.sr ∧ resW.failed.count s11.sr = 0 := by
  have h := (C6_failure_list envAll [s11] resW outW rfl (by simp)).2.1 0 (by decide) (by decide)
  exact ⟨h.1, h.2.trans (by rfl)⟩

/-- C8: order and count invariance.  Each of the four operations maps the
record list to one of the same length; at every index the output record
agrees with the input record on every field except the single field that
operation is documented to change (`audio` for Clear Audio, Acquire Remote
Audio, and Bind Local Audio; `sr#` for Recompute Identifier).  For Acquire
Remote Audio this holds for every run that completes. -/
theorem C8_order_count_invariance (l : List Shloka) (files : List String) (env : Env) :
    ((clear_audio l).length = l.length ∧
      ∀ i (h1 : i < l.length) (h2 : i < (clear_audio l).length),
        agreeExceptAudio (l.get ⟨i, h1⟩) ((clear_audio l).get ⟨i, h2⟩)) ∧
    ((update_sr l).length = l.length ∧
      ∀ i (h1 : i < l.length) (h2 : i < (update_sr l).length),
        agreeExceptSr (l.get ⟨i, h1⟩) ((update_sr l).get ⟨i, h2⟩)) ∧
    ((setup_local_audio files l).length = l.length ∧
      ∀ i (h1 : i < l.length) (h2 : i < (setup_local_audio files l).length),
        agreeExceptAudio (l.get ⟨i, h1⟩) ((setup_local_audio files l).get ⟨i, h2⟩)) ∧
    (∀ res out, download_audio_run env l = some (res, out) →
      out.length = l.length ∧
      ∀ i (h1 : i < l.length) (h2 : i < out.length),
        agreeExceptAudio (l.get ⟨i, h1⟩) (out.get ⟨i, h2⟩)) := by
  refine ⟨⟨by simp [clear_audio], ?_⟩, ⟨by simp [update_sr], ?_⟩,
    ⟨by simp [setup_local_audio], ?_⟩, ?_⟩
  · intro i h1 h2
    have hmap : (clear_audio l).get ⟨i, h2⟩ =
        (fun s => { s with audio := "" }) (l.get ⟨i, h1⟩) :=
      get_map_eq _ l i h1 h2
    rw [hmap]
    exact ⟨rfl, rfl, rfl⟩
  · intro i h1 h2
    have hmap : (update_sr l).get ⟨i, h2⟩ = updateShloka (l.get ⟨i, h1⟩) :=
      get_map_eq _ l i h1 h2
    rw [hmap]
    unfold updateShloka
    cases searchMarker (l.get ⟨i, h1⟩).shloka.data with
    | some r => obtain ⟨c, v⟩ := r; exact ⟨rfl, rfl, rfl⟩
    | none => exact ⟨rfl, rfl, rfl⟩
  · intro i h1 h2
    have hmap : (setup_local_audio files l).get ⟨i, h2⟩ =
        (fun s => match dictLookup (buildAudioFiles files) s.sr with
          | some path => { s with audio := path }
          | none => s) (l.get ⟨i, h1⟩) :=
      get_map_eq _ l i h1 h2
    rw [hmap]
    cases hdl : dictLookup (buildAudioFiles files) (l.get ⟨i, h1⟩).sr with
    | some path => simp only [hdl]; exact ⟨rfl, rfl, rfl⟩
    | none => simp only [hdl]; exact ⟨rfl, rfl, rfl⟩
  · intro res out h
    obtain ⟨hlen, _, _, hag⟩ := runDownload_master env l _ res out h
    exact ⟨hlen, hag⟩

/-- Witness for C8: the four invariance clauses instantiated on one-record
inputs. -/
theorem C8_witness :
    agreeExceptAudio s11 ((clear_audio [s11]).get ⟨0, by decide⟩) ∧
    agreeExceptSr s11 ((update_sr [s11]).get ⟨0, by decide⟩) ∧
    agreeExceptAudio s11 ((setup_local_audio [fileW] [s11]).get ⟨0, by decide⟩) ∧
    agreeExceptAudio s11 (outW.get ⟨0, by decide⟩) := by
  have h := C8_order_count_invariance [s11] [fileW] envAll
  exact ⟨h.1.2 0 (by decide) (by decide), h.2.1.2 0 (by decide) (by decide),
    h.2.2.1.2 0 (by decide) (by decide), (h.2.2.2 resW outW rfl).2 0 (by decide) (by decide)⟩

/-- C9: Clear Audio empties every record's `audio` unconditionally and is
idempotent. -/
theorem C9_clear_unconditional_idempotent (l : List Shloka) :
    (∀ s ∈ clear_audio l, s.audio = "") ∧
    clear_audio (clear_audio l) = clear_audio l := by
  constructor
  · intro s hs
    obtain ⟨t, _, rfl⟩ := List.mem_map.mp hs
    rfl
  · unfold clear_audio
    rw [List.map_map]
    rfl

/-- Witness for C9: the cleared one-record list has empty `audio` and a
second clearing changes nothing. -/
theorem C9_witness :
    ({ s11 with audio := "" } : Shloka).audio = "" ∧
    clear_audio (clear_audio [s11]) = clear_audio [s11] := by
  have h := C9_clear_unconditional_idempotent [s11]
  exact ⟨h.1 { s11 with audio := "" } (by decide), h.2⟩

lemma setup_audio_eq : ∀ (l : List Shloka), (∀ s ∈ l, (parseSr s.sr).isSome) →
    setup_audio l = some (clear_audio l) := by
  intro l
  induction l with
  | nil => intro _; rfl
  | cons s rest ih =>
    intro h
    obtain ⟨cv, hcv⟩ := Option.isSome_iff_exists.mp (h s (List.mem_cons_self s rest))
    have hrest := ih (fun x hx => h x (List.mem_cons_of_mem s hx))
    simp [setup_audio, setupAudioShloka, hcv, hrest, clear_audio]

/-- C10: the three scripts `clear_all_audio.py`, `clear_audio.py`, and
`setup_audio.py` perform the identical transformation: the first two are
literally the same map, and `setup_audio.py` yields that same result on
every dataset all of whose records' `sr#` parse as two hyphen-separated
integers; the common result has every `audio` empty and all other fields
unchanged. -/
theorem C10_three_scripts_identical (l : List Shloka) :
    clear_all_audio l = clear_audio l ∧
    ((∀ s ∈ l, (parseSr s.sr).isSome) → setup_audio l = some (clear_audio l)) ∧
    (∀ i (h1 : i < l.length) (h2 : i < (clear_audio l).length),
      agreeExceptAudio (l.get ⟨i, h1⟩) ((clear_audio l).get ⟨i, h2⟩) ∧
      ((clear_audio l).get ⟨i, h2⟩).audio = "") := by
  refine ⟨rfl, setup_audio_eq l, ?_⟩
  intro i h1 h2
  have hmap : (clear_audio l).get ⟨i, h2⟩ =
      (fun s => { s with audio := "" }) (l.get ⟨i, h1⟩) :=
    get_map_eq _ l i h1 h2
  rw [hmap]
  exact ⟨⟨rfl, rfl, rfl⟩, rfl⟩

/-- Witness for C10: on a one-record well-formed dataset the three scripts
produce the same cleared collection. -/
theorem C10_witness :
    clear_all_audio [s11] = clear_audio [s11] ∧
    setup_audio [s11] = some (clear_audio [s11]) := by
  have h := C10_three_scripts_identical [s11]
  exact ⟨h.1, h.2.1 (by decide)⟩
